import Mathlib

/-
Verification development for `wavelets.py` (flat/curved-sky wavelet transforms).

The Python source is shallowly embedded below.  Real (floating-point) arithmetic
is modelled by `ℝ`; Python `int()` truncation and numpy's round-half-even are
modelled by `pyint` and `npround`; fallible constructor/transform paths return
`Except String`.  External collaborators (FFT engine, spherical-harmonic engine,
pixell grid utilities, the `multimap` container) are out of scope of the core
per its specification; they appear either as explicit parameters constrained by
the contracts the core needs, or as small models marked as such in their
doc comments.
-/

/-! ## Numeric helpers: Python `int()` and numpy `round` -/

open Classical in
/-- Python `int()` applied to a float: truncation toward zero. -/
noncomputable def pyint (x : ℝ) : ℤ :=
  if 0 ≤ x then ⌊x⌋ else ⌈x⌉

open Classical in
/-- numpy `np.round`: round half to even (banker's rounding), as an integer. -/
noncomputable def npround (x : ℝ) : ℤ :=
  if Int.fract x = 1/2 then (if Even ⌊x⌋ then ⌊x⌋ else ⌊x⌋ + 1) else ⌊x + 1/2⌋

/-! ## Wavelet basis generators (`wavelets.py` lines 113-191)

Each Python basis object is modelled twice:
* an `...Obj` structure mirroring the attribute state produced by `__init__`
  (with `Option` for attributes that can be `None`, and `Except` for the
  constructor, since `_finalize` can raise);
* a record of the bounds-fixed parameters (`Butterworth`, `ButterTrim`) on
  which the filter evaluation `__call__`/`kernel` is defined.
-/

/-- Scale count `n = int((np.log(lmax)-np.log(lmin))/np.log(step))`
(`_finalize`, lines 139 and 167). -/
noncomputable def butterN (lmin lmax step : ℝ) : ℤ :=
  pyint ((Real.log lmax - Real.log lmin) / Real.log step)

/-- Pre-rounding per-scale cutoff for `Butterworth._finalize` (line 142):
`lmin * (1/tol-1)**(log(step)/shape) * step**(i+0.5)`. -/
noncomputable def butterLmaxsPre (lmin tol step shape : ℝ) (i : ℕ) : ℝ :=
  lmin * (1 / tol - 1) ^ (Real.log step / shape) * step ^ ((i : ℝ) + 0.5)

/-- Pre-rounding per-scale cutoff for `ButterTrim._finalize` (line 170):
`lmin * ((1+2*trim)/trim-1)**(log(step)/shape) * step**(i+0.5)`. -/
noncomputable def trimLmaxsPre (lmin trim step shape : ℝ) (i : ℕ) : ℝ :=
  lmin * ((1 + 2 * trim) / trim - 1) ^ (Real.log step / shape) * step ^ ((i : ℝ) + 0.5)

/-- Attribute state of a `Butterworth` instance.  `lmin`/`lmax` are `None`
until bounds are supplied; `n`/`lmaxs` are `None` until `_finalize` ran. -/
structure ButterworthObj where
  step : ℝ
  shape : ℝ
  tol : ℝ
  lmin : Option ℝ
  lmax : Option ℝ
  n : Option ℤ
  lmaxs : Option (List ℤ)


/-- Attribute state of a `ButterTrim` instance. -/
structure ButterTrimObj where
  step : ℝ
  shape : ℝ
  trim : ℝ
  lmin : Option ℝ
  lmax : Option ℝ
  n : Option ℤ
  lmaxs : Option (List ℤ)


/-- Attribute state of an `AdriSD` instance. -/
structure AdriSDObj where
  lamb : ℝ
  lmin : Option ℝ
  lmax : Option ℝ
  profiles : Option (List (List ℝ))
  lmaxs : Option (List ℤ)


/-- `Butterworth._finalize` (lines 138-143).  Reads `self.lmin`/`self.lmax`:
if either is `None`, `np.log(None)` raises `TypeError`.  Computes `n`, then
`lmaxs = np.round(...).astype(int)` over `np.arange(n)`, then assigns
`lmaxs[-1] = self.lmax`, which raises `IndexError` when the array is empty. -/
noncomputable def Butterworth.finalize (o : ButterworthObj) : Except String ButterworthObj :=
  match o.lmin, o.lmax with
  | some lmin, some lmax =>
    let n : ℤ := butterN lmin lmax o.step
    let lmaxs0 : List ℤ :=
      (List.range n.toNat).map (fun i => npround (butterLmaxsPre lmin o.tol o.step o.shape i))
    if lmaxs0.isEmpty then Except.error "IndexError: index -1 is out of bounds"
    else Except.ok { o with n := some n,
                            lmaxs := some (lmaxs0.set (lmaxs0.length - 1) (pyint lmax)) }
  | _, _ => Except.error "TypeError: np.log does not support NoneType"

/-- `Butterworth.__init__` (lines 122-127).  Note the source bug: when `lmin`
is `None` and `lmax` is set, the LOCAL variable `lmin` is set to 1 (line 126)
but `self.lmin` (assigned on line 124) is never updated, so `_finalize` still
sees `self.lmin = None`. -/
noncomputable def Butterworth.init (step shape tol : ℝ) (lmin lmax : Option ℝ) :
    Except String ButterworthObj :=
  let self : ButterworthObj :=
    { step := step, shape := shape, tol := tol, lmin := lmin, lmax := lmax,
      n := none, lmaxs := none }
  match lmax with
  | none => Except.ok self
  | some _ =>
    let _lminLocal : ℝ := lmin.getD 1
    Butterworth.finalize self

/-- `ButterTrim._finalize` (lines 166-171): as for `Butterworth` but with
`np.ceil` instead of `np.round` and the trim-based cutoff constant. -/
noncomputable def ButterTrim.finalize (o : ButterTrimObj) : Except String ButterTrimObj :=
  match o.lmin, o.lmax with
  | some lmin, some lmax =>
    let n : ℤ := butterN lmin lmax o.step
    let lmaxs0 : List ℤ :=
      (List.range n.toNat).map (fun i => ⌈trimLmaxsPre lmin o.trim o.step o.shape i⌉)
    if lmaxs0.isEmpty then Except.error "IndexError: index -1 is out of bounds"
    else Except.ok { o with n := some n,
                            lmaxs := some (lmaxs0.set (lmaxs0.length - 1) (pyint lmax)) }
  | _, _ => Except.error "TypeError: np.log does not support NoneType"

/-- `ButterTrim.__init__` (lines 150-155), with the same un-propagated
local-`lmin` default as `Butterworth.__init__`. -/
noncomputable def ButterTrim.init (step shape trim : ℝ) (lmin lmax : Option ℝ) :
    Except String ButterTrimObj :=
  let self : ButterTrimObj :=
    { step := step, shape := shape, trim := trim, lmin := lmin, lmax := lmax,
      n := none, lmaxs := none }
  match lmax with
  | none => Except.ok self
  | some _ =>
    let _lminLocal : ℝ := lmin.getD 1
    ButterTrim.finalize self

/-- `AdriSD._finalize` (lines 188-191).  The kernel source
`optweight.wlm_utils.get_sd_kernels` is an external collaborator and is passed
in as the pure function `sdk`; the profiles it returns are squared elementwise
(`self.profiles **= 2`). -/
def AdriSD.finalize (sdk : ℝ → ℝ → Option ℝ → (List (List ℝ) × List ℤ))
    (o : AdriSDObj) : Except String AdriSDObj :=
  match o.lmax with
  | some lmax =>
    let pr := sdk o.lamb lmax o.lmin
    Except.ok { o with profiles := some (pr.1.map (fun p => p.map (fun x => x ^ 2))),
                       lmaxs := some pr.2 }
  | none => Except.error "TypeError: lmax is None"

/-- `AdriSD.__init__` (lines 176-180), with the same un-propagated local
`lmin` default: `self.lmin` keeps the value passed in (possibly `None`). -/
def AdriSD.init (sdk : ℝ → ℝ → Option ℝ → (List (List ℝ) × List ℤ))
    (lamb : ℝ) (lmin lmax : Option ℝ) : Except String AdriSDObj :=
  let self : AdriSDObj :=
    { lamb := lamb, lmin := lmin, lmax := lmax, profiles := none, lmaxs := none }
  match lmax with
  | none => Except.ok self
  | some _ =>
    let _lminLocal : ℝ := lmin.getD 1
    AdriSD.finalize sdk self

/-- `trim_kernel` (line 195): `np.clip(a*(1+2*tol)-tol, 0, 1)`. -/
def trim_kernel (a tol : ℝ) : ℝ := min (max (a * (1 + 2 * tol) - tol) 0) 1

/-- Bounds-fixed `Butterworth` parameters, on which `kernel`/`__call__` act. -/
structure Butterworth where
  step : ℝ
  shape : ℝ
  tol : ℝ
  lmin : ℝ
  lmax : ℝ

/-- Scale count of a bounds-fixed `Butterworth`. -/
noncomputable def Butterworth.n (b : Butterworth) : ℕ :=
  (butterN b.lmin b.lmax b.step).toNat

/-- `Butterworth.kernel` (lines 136-137). -/
noncomputable def Butterworth.kernel (b : Butterworth) (i : ℕ) (l : ℝ) : ℝ :=
  1 / (1 + (l / (b.lmin * b.step ^ ((i : ℝ) + 0.5))) ^ (b.shape / Real.log b.step))

/-- `Butterworth.__call__` (lines 131-135): the top scale is the constant 1,
lower scales are the low-pass kernel, and for `i > 0` the previous kernel is
subtracted. -/
noncomputable def Butterworth.call (b : Butterworth) (i : ℕ) (l : ℝ) : ℝ :=
  (if i = b.n - 1 then 1 else b.kernel i l) - (if 0 < i then b.kernel (i - 1) l else 0)

/-- Bounds-fixed `ButterTrim` parameters. -/
structure ButterTrim where
  step : ℝ
  shape : ℝ
  trim : ℝ
  lmin : ℝ
  lmax : ℝ

/-- Scale count of a bounds-fixed `ButterTrim` (same formula, line 167). -/
noncomputable def ButterTrim.n (t : ButterTrim) : ℕ :=
  (butterN t.lmin t.lmax t.step).toNat

/-- `ButterTrim.kernel` (lines 164-165): the Butterworth low-pass response
passed through `trim_kernel`. -/
noncomputable def ButterTrim.kernel (t : ButterTrim) (i : ℕ) (l : ℝ) : ℝ :=
  trim_kernel (1 / (1 + (l / (t.lmin * t.step ^ ((i : ℝ) + 0.5))) ^ (t.shape / Real.log t.step)))
    t.trim

/-- `ButterTrim.__call__` (lines 159-163), same difference structure. -/
noncomputable def ButterTrim.call (t : ButterTrim) (i : ℕ) (l : ℝ) : ℝ :=
  (if i = t.n - 1 then 1 else t.kernel i l) - (if 0 < i then t.kernel (i - 1) l else 0)

/-! ## Module-loading model (for the default-argument bug, line 17)

Python evaluates default-argument expressions at `def` time, while the module
body executes top to bottom.  A top-level statement is modelled by the name it
binds together with the global names its definition-time expressions need. -/

/-- One top-level statement of a Python module: the global name it binds and
the global names evaluated at definition time (default-argument expressions). -/
structure PyStmt where
  name : String
  needs : List String


/-- Execute the top-level statements of a module in order.  A statement whose
definition-time expressions mention an unbound global raises `NameError`,
aborting the module load. -/
def execTop : List PyStmt → List String → Except String (List String)
  | [], env => Except.ok env
  | s :: rest, env =>
    match s.needs.find? (fun r => !(env.contains r)) with
    | some missing => Except.error missing
    | none => execTop rest (env ++ [s.name])

/-- Top-level binding structure of `wavelets.py`: `WaveletTransform` is defined
first (line 13) and its `__init__` has the definition-time default `ButterTrim()`
(line 17); the `ButterTrim` class is only bound later (line 145). -/
def waveletsModule : List PyStmt :=
  [ { name := "WaveletTransform", needs := ["ButterTrim"] },
    { name := "Butterworth", needs := [] },
    { name := "ButterTrim", needs := [] },
    { name := "AdriSD", needs := [] },
    { name := "trim_kernel", needs := [] },
    { name := "make_wavelet_geometry_flat", needs := [] },
    { name := "make_wavelet_geometry_curved", needs := [] } ]

/-! ## Flat geometry planner (`make_wavelet_geometry_flat`, lines 197-204)

Only the pixel-shape computation is repository logic; the coordinate-mapping
rescale (`wcsutils.scale`) is an external collaborator and not modelled. -/

/-- Pixel-shape part of `make_wavelet_geometry_flat`:
`oshape = np.minimum(np.ceil(ishape*ires/ores).astype(int)+5, ishape)`. -/
noncomputable def make_wavelet_geometry_flat_oshape (ishape : ℤ × ℤ) (ires ores : ℝ) :
    ℤ × ℤ :=
  let o1 : ℤ := ⌈(ishape.1 : ℝ) * ires / ores⌉ + 5
  let o2 : ℤ := ⌈(ishape.2 : ℝ) * ires / ores⌉ + 5
  (min o1 ishape.1, min o2 ishape.2)

/-- Output shape as worded by the specification: scale the input shape by the
ratio of pixel sizes, round up, add a 5-pixel safety margin, and clamp so the
result never exceeds the input shape. -/
noncomputable def spec_flat_oshape (ishape : ℤ × ℤ) (ires ores : ℝ) : ℤ × ℤ :=
  (min (⌈(ishape.1 : ℝ) * (ires / ores)⌉ + 5) ishape.1,
   min (⌈(ishape.2 : ℝ) * (ires / ores)⌉ + 5) ishape.2)

/-! ## Engine accessor properties (`WaveletTransform`, lines 54-59) -/

/-- Harmonic-transform descriptor fields the accessors read: a pixel shape of
type `S` and a coordinate mapping of type `W`. -/
structure UHT (S W : Type) where
  shape : S
  wcs : W

/-- The engine state needed by the accessor properties. -/
structure WaveletTransform (S W : Type) where
  uht : UHT S W

/-- Property `shape` (line 55): `return self.uht.shape`. -/
def WaveletTransform.shape {S W : Type} (e : WaveletTransform S W) : S := e.uht.shape

/-- Property `wcs` (line 57): the source returns `self.uht.shape` (not
`self.uht.wcs`), so the result has the pixel-shape type. -/
def WaveletTransform.wcs {S W : Type} (e : WaveletTransform S W) : S := e.uht.shape

/-- Property `geometry` (line 59): `return self.shape, self.wcs`. -/
def WaveletTransform.geometry {S W : Type} (e : WaveletTransform S W) : S × S :=
  (e.shape, e.wcs)

/-! ## Per-scale geometry construction (`WaveletTransform.__init__`, lines 42-53)

The geometry planners receive everything except the target resolution from the
fixed engine inputs, so they are abstracted as functions of the target
resolution alone: `planner ores` stands for
`make_wavelet_geometry_flat(uht.shape, uht.wcs, ires, ores)` resp.
`make_wavelet_geometry_curved(uht.shape, uht.wcs, ores)`. -/

/-- Flat target resolutions (line 43): `np.maximum(np.pi/lmaxs, ires)`. -/
noncomputable def oress_flat (lmaxs : List ℤ) (ires : ℝ) : List ℝ :=
  lmaxs.map (fun lm : ℤ => max (Real.pi / (lm : ℝ)) ires)

/-- Curved target resolutions (line 51): `np.maximum(np.pi/lmaxs/2, ires)` —
the documented factor-2 quadrature compensation, applied to the whole array. -/
noncomputable def oress_curved (lmaxs : List ℤ) (ires : ℝ) : List ℝ :=
  lmaxs.map (fun lm : ℤ => max (Real.pi / (lm : ℝ) / 2) ires)

/-- Flat scale geometries (line 44): the planner is applied to all target
resolutions except the last, and the original full-resolution geometry is
appended as the top scale. -/
def geometries_flat {G : Type} (fullgeo : G) (planner : ℝ → G) (oress : List ℝ) :
    List G :=
  (oress.dropLast.map planner) ++ [fullgeo]

/-- Curved scale geometries (line 52): the curved planner is applied to every
target resolution, including the last (top) scale. -/
def geometries_curved {G : Type} (planner : ℝ → G) (oress : List ℝ) : List G :=
  oress.map planner

/-! ## Caller-supplied output containers (`map2wave`/`wave2map`, lines 60-99)

The transforms are modelled at the shape level: a per-scale cell is a pair
(pixel shape, opaque payload), where the payload records whether the cell has
been overwritten.  The `multimap` container lives in this repository but not
under `src/`, so its write semantics are modelled from the specification. -/

/-- Modelled from the spec: the `multimap` container (module `multimap`, a
repository module not present under `src/`).  Writing a scale's array into the
container checks the target cell's shape and fails immediately on a mismatch,
without mutating the cell; an out-of-range scale index also fails. -/
def mmWrite (cells : List (ℕ × ℤ)) (i : ℕ) (x : ℕ × ℤ) :
    Except String (List (ℕ × ℤ)) :=
  match cells.get? i with
  | none => Except.error "IndexError: scale index out of range"
  | some c => if c.fst = x.fst then Except.ok (cells.set i x)
              else Except.error "shape mismatch"

/-- The per-scale loop of `map2wave` (lines 70-75 flat, 79-83 curved): for each
engine geometry in order, the freshly computed scale array (shape = that
geometry's shape, payload `vals i`) is written into the caller-supplied
container `ow`.  On failure the loop stops, returning the container as already
mutated so far together with the error. -/
def map2waveLoop (vals : ℕ → ℤ) :
    List ℕ → ℕ → List (ℕ × ℤ) → (List (ℕ × ℤ)) × Option String
  | [], _, ow => (ow, none)
  | g :: gs, i, ow =>
    match mmWrite ow i (g, vals i) with
    | Except.ok ow2 => map2waveLoop vals gs (i + 1) ow2
    | Except.error e => (ow, some e)

/-- The output step of flat `wave2map` (lines 89-99): the whole result `tmp`
is computed first (into fresh buffers), and the caller-supplied `omap` is
written only once at the end by `omap[:] = tmp`, which fails on a shape
mismatch without mutating `omap`. -/
def wave2mapWrite (fullShape : ℕ) (tmpval : ℤ) (omap : ℕ × ℤ) :
    (ℕ × ℤ) × Option String :=
  if omap.fst = fullShape then ((fullShape, tmpval), none)
  else (omap, some "shape mismatch")

/-! ## `with_bounds` under object identity (lines 128-130, 156-158, 181-183)

Python object allocation is modelled by a heap (a list of basis objects);
allocating appends at the end, and the returned object is referred to by its
index.  `with_bounds` reads the receiver's attributes and constructs a fresh
instance from them plus the given bounds. -/

/-- A basis object of any of the three variants, as stored on the heap. -/
inductive BasisObj where
  | bw (o : ButterworthObj)
  | bt (o : ButterTrimObj)
  | sd (o : AdriSDObj)

/-- The body of each variant's `with_bounds`: construct a fresh instance of
the receiver's variant from the receiver's own parameters and the given
bounds (`Butterworth(step=self.step, shape=self.shape, tol=self.tol,
lmin=lmin, lmax=lmax)` and its analogues). -/
noncomputable def constructSame (sdk : ℝ → ℝ → Option ℝ → (List (List ℝ) × List ℤ))
    (obj : BasisObj) (lmin lmax : ℝ) : Except String BasisObj :=
  match obj with
  | BasisObj.bw o =>
    (Butterworth.init o.step o.shape o.tol (some lmin) (some lmax)).map BasisObj.bw
  | BasisObj.bt o =>
    (ButterTrim.init o.step o.shape o.trim (some lmin) (some lmax)).map BasisObj.bt
  | BasisObj.sd o =>
    (AdriSD.init sdk o.lamb (some lmin) (some lmax)).map BasisObj.sd

/-- Allocate the result of a constructor call on the heap (appending, as a
fresh address), returning the new heap and the new object's index; a raising
constructor propagates the error and allocates nothing. -/
def allocIfOk (heap : List BasisObj) (res : Except String BasisObj) :
    Except String (List BasisObj × ℕ) :=
  match res with
  | Except.ok c => Except.ok (heap ++ [c], heap.length)
  | Except.error e => Except.error e

/-- Heap-level model of `basis.with_bounds(lmin, lmax)`: look up the receiver
at index `r`, build a fresh instance of the same variant from the receiver's
parameters and the given bounds, and allocate it. -/
noncomputable def with_bounds (sdk : ℝ → ℝ → Option ℝ → (List (List ℝ) × List ℤ))
    (heap : List BasisObj) (r : ℕ) (lmin lmax : ℝ) :
    Except String (List BasisObj × ℕ) :=
  match heap.get? r with
  | none => Except.error "IndexError: no such object"
  | some obj => allocIfOk heap (constructSame sdk obj lmin lmax)

/-! ## Flat-sky transform pair (`map2wave` lines 70-75, `wave2map` lines 89-99)

The Fourier content is modelled on the full grid's mode set `Fin N` (the 2D
grid flattened).  `resample_fft(..., corner=True, norm=None)` acts on a
Fourier-space array as corner-anchored cropping (down) or zero-padding (up);
a scale's small Fourier array is represented as a full-grid array supported on
the modes `keep i` that its grid retains, so cropping is masking and padding
with `op=np.add` is masked addition.  The external FFT engine appears as the
fields `fft`/`ifft` (full grid) and `sfft`/`sifft` (per-scale grids); since
every inverse FFT in the source is immediately followed by `.real`, the
inverse operators land in real-valued maps.  `symmS i y` is the per-scale
predicate "y is the spectrum of a real map" (conjugate symmetry), which the
contracts below are stated on. -/

structure FlatEnv (N n : ℕ) where
  fft : (Fin N → ℝ) → (Fin N → ℂ)
  ifft : (Fin N → ℂ) → (Fin N → ℝ)
  sfft : Fin n → (Fin N → ℝ) → (Fin N → ℂ)
  sifft : Fin n → (Fin N → ℂ) → (Fin N → ℝ)
  snpix : Fin n → ℕ
  keep : Fin n → Fin N → Bool
  lmap : Fin N → ℝ
  symmS : Fin n → (Fin N → ℂ) → Prop

/-- Corner-anchored Fourier-space cropping in the masked representation:
modes the target grid keeps are copied, all others vanish. -/
def cropf {N : ℕ} (keep : Fin N → Bool) (y : Fin N → ℂ) : Fin N → ℂ :=
  fun k => if keep k then y k else 0

/-- Cached filters of the engine (line 47): the basis evaluated on the scale's
multipole map.  Resampling `uht.l` with `resample_fft(..., corner=True)` gives
exactly the full-grid multipole value at each kept mode, so on its support the
filter is `basis i (lmap k)`. -/
def flatFilters {N n : ℕ} (E : FlatEnv N n) (basis : ℕ → ℝ → ℝ) (i : Fin n) :
    Fin N → ℝ :=
  fun k => basis i (E.lmap k)

/-- Flat `map2wave` (lines 70-75): `fmap = fft(map)/map.npix`; per scale,
crop `fmap` to the scale grid, multiply by the cached filter, inverse-FFT and
take the real part.  Leading batch dimensions act slab-wise. -/
noncomputable def map2wave_flat {N n : ℕ} (E : FlatEnv N n) (basis : ℕ → ℝ → ℝ) {β : Type}
    (m : β → Fin N → ℝ) : Fin n → β → Fin N → ℝ :=
  fun i b =>
    let fmap : Fin N → ℂ := fun k => E.fft (m b) k / (N : ℂ)
    let fsmall : Fin N → ℂ := cropf (E.keep i) fmap
    let fsmall2 : Fin N → ℂ := fun k => fsmall k * ((flatFilters E basis i k : ℝ) : ℂ)
    E.sifft i fsmall2

/-- Flat `wave2map` (lines 89-99): per scale, FFT the coefficient map, divide
by its pixel count, zero-pad onto the full grid accumulating with `op=np.add`;
finally inverse-FFT the accumulator and take the real part. -/
noncomputable def wave2map_flat {N n : ℕ} (E : FlatEnv N n) {β : Type}
    (w : Fin n → β → Fin N → ℝ) : β → Fin N → ℝ :=
  fun b =>
    let fomap : Fin N → ℂ :=
      fun k => ∑ i : Fin n,
        cropf (E.keep i) (fun k2 => E.sfft i (w i b) k2 / (E.snpix i : ℂ)) k
    E.ifft fomap

/-! ## Remaining support definitions -/

/-- A list of integers is non-decreasing along its indices. -/
def ListNondecr (L : List ℤ) : Prop :=
  ∀ i j (hi : i < L.length) (hj : j < L.length), i ≤ j → L.get ⟨i, hi⟩ ≤ L.get ⟨j, hj⟩

/-- A one-mode, one-scale flat environment on which the FFT contracts hold
definitionally: the FFT of a one-pixel map is the pixel value itself. -/
noncomputable def flatEnvOne : FlatEnv 1 1 where
  fft := fun m _ => ((m 0 : ℝ) : ℂ)
  ifft := fun y _ => (y 0).re
  sfft := fun _ w _ => ((w 0 : ℝ) : ℂ)
  sifft := fun _ y _ => (y 0).re
  snpix := fun _ => 1
  keep := fun _ _ => true
  lmap := fun _ => 0
  symmS := fun _ y => (y 0).im = 0

/-! ## Theorems -/

/-- C4: loading the module executes the class bodies in order; the
definition-time default `basis=ButterTrim()` on line 17 references the global
`ButterTrim`, which is not yet bound when `WaveletTransform` is being defined,
so the module load aborts with `NameError: ButterTrim` and the documented
default-basis pathway is unreachable. -/
theorem c4_default_basis_nameerror :
    execTop waveletsModule [] = Except.error "ButterTrim" := rfl

/-- C5 (code bug): constructing a basis with `lmax` set and `lmin` unset does
NOT produce an instance with `lmin = 1`.  For `Butterworth` and `ButterTrim`,
`_finalize` reads the never-updated `self.lmin = None` and `np.log(None)`
raises `TypeError`; for `AdriSD`, whenever construction returns at all, the
stored `lmin` attribute is still `None`, not 1. -/
theorem c5_lmin_default_not_stored :
    Butterworth.init 2 7 (1/1000) none (some 100) =
      Except.error "TypeError: np.log does not support NoneType" ∧
    ButterTrim.init 2 7 (1/100) none (some 100) =
      Except.error "TypeError: np.log does not support NoneType" ∧
    ∀ (sdk : ℝ → ℝ → Option ℝ → (List (List ℝ) × List ℤ)) (lamb l : ℝ),
      AdriSD.init sdk lamb none (some l) =
        Except.ok ⟨lamb, none, some l,
          some ((sdk lamb l none).1.map (fun p => p.map (fun x => x ^ 2))),
          some (sdk lamb l none).2⟩ :=
  ⟨rfl, rfl, fun _ _ _ => rfl⟩

/-- C10: the `wcs` property (line 57) returns the descriptor's pixel shape
`uht.shape`, not its coordinate mapping, so `geometry` returns the pair
(shape, shape); on a descriptor where the two fields hold different values the
property's result differs from the actual coordinate mapping. -/
theorem c10_wcs_returns_shape :
    (∀ (S W : Type) (e : WaveletTransform S W),
        e.geometry = (e.uht.shape, e.uht.shape)) ∧
    WaveletTransform.wcs ({ uht := { shape := 0, wcs := 1 } } : WaveletTransform ℕ ℕ) ≠
      ({ shape := 0, wcs := 1 } : UHT ℕ ℕ).wcs := by
  exact ⟨fun S W e => rfl, by decide⟩

/-- C10 witness: the general geometry equation evaluated on a concrete
engine. -/
theorem c10_wcs_returns_shape_witness :
    ({ uht := { shape := 5, wcs := 7 } } : WaveletTransform ℕ ℕ).geometry = (5, 5) :=
  c10_wcs_returns_shape.1 ℕ ℕ { uht := { shape := 5, wcs := 7 } }

/-- C9: the flat geometry planner's output pixel shape equals the input shape
scaled by `ires/ores`, rounded up, plus the 5-pixel margin, clamped
componentwise to never exceed the input shape. -/
theorem c9_flat_geometry_shape (ishape : ℤ × ℤ) (ires ores : ℝ) :
    make_wavelet_geometry_flat_oshape ishape ires ores = spec_flat_oshape ishape ires ores ∧
    (make_wavelet_geometry_flat_oshape ishape ires ores).1 ≤ ishape.1 ∧
    (make_wavelet_geometry_flat_oshape ishape ires ores).2 ≤ ishape.2 := by
  refine ⟨?_, min_le_right _ _, min_le_right _ _⟩
  unfold make_wavelet_geometry_flat_oshape spec_flat_oshape
  rw [mul_div_assoc, mul_div_assoc]

/-- C9 witness: the planner evaluated at a concrete input. -/
theorem c9_flat_geometry_shape_witness :
    make_wavelet_geometry_flat_oshape (10, 20) 1 1 = spec_flat_oshape (10, 20) 1 1 :=
  (c9_flat_geometry_shape (10, 20) 1 1).1

/-- C7 counterexample: a `map2wave` call given a caller-supplied container
whose scale-0 shape matches but whose scale-1 shape does not fails AFTER
having overwritten scale 0, so the call does leave a partial result in the
caller-supplied output. -/
theorem c7_partial_write_counterexample :
    (map2waveLoop (fun _ => 5) [1, 2] 0 [(1, 0), (3, 0)]).snd = some "shape mismatch" ∧
    (map2waveLoop (fun _ => 5) [1, 2] 0 [(1, 0), (3, 0)]).fst ≠ [(1, 0), (3, 0)] := by
  decide

/-- C7 amended: the no-partial-mutation guarantee holds for `wave2map`, whose
caller-supplied `omap` is written exactly once after all computation: on any
failure `omap` is returned unchanged, and on success it holds the full
result. -/
theorem c7_no_partial_write_amended (fullShape : ℕ) (tmpval : ℤ) (omap : ℕ × ℤ) :
    (∀ e, (wave2mapWrite fullShape tmpval omap).snd = some e →
      (wave2mapWrite fullShape tmpval omap).fst = omap) ∧
    ((wave2mapWrite fullShape tmpval omap).snd = none →
      (wave2mapWrite fullShape tmpval omap).fst = (fullShape, tmpval)) := by
  unfold wave2mapWrite
  by_cases h : omap.fst = fullShape <;> simp [h]

/-- C7 amended witness: a failing `wave2map` output write leaves the concrete
caller-supplied map untouched. -/
theorem c7_no_partial_write_amended_witness :
    (wave2mapWrite 5 9 (4, 0)).fst = (4, 0) :=
  (c7_no_partial_write_amended 5 9 (4, 0)).1 "shape mismatch" (by decide)

/-- C3 counterexample: in the curved branch the geometry list is
`[make_wavelet_geometry_curved(...) for ores in oress]` over ALL target
resolutions, so the top scale is a planner output, not the engine's original
geometry: instantiating the planner with one that never returns the
full-resolution geometry, the top-scale geometry differs from it. -/
theorem c3_top_scale_counterexample :
    (geometries_curved (fun _ => false) (oress_curved [1] 1)).getLast? ≠ some true := by
  simp [geometries_curved, oress_curved]

/-- C3 amended: for flat engines the scale-geometry list has one geometry per
scale and its top entry is exactly the engine's original full-resolution
geometry; for curved engines every scale, including the top one, is produced
by the curved planner at the doubled resolution `max(pi/lmax_i/2, ires)`. -/
theorem c3_top_scale_amended {G : Type} (fullgeo : G) (planner : ℝ → G)
    (lmaxs : List ℤ) (ires : ℝ) (h : lmaxs ≠ []) :
    (geometries_flat fullgeo planner (oress_flat lmaxs ires)).length = lmaxs.length ∧
    (geometries_flat fullgeo planner (oress_flat lmaxs ires)).getLast? = some fullgeo ∧
    geometries_curved planner (oress_curved lmaxs ires) =
      lmaxs.map (fun lm : ℤ => planner (max (Real.pi / (lm : ℝ) / 2) ires)) := by
  have hpos : 0 < lmaxs.length := List.length_pos.mpr h
  refine ⟨?_, ?_, ?_⟩
  · rw [geometries_flat, List.length_append, List.length_map, List.length_dropLast]
    rw [oress_flat, List.length_map]
    simp only [List.length_singleton]
    omega
  · simp [geometries_flat]
  · rw [geometries_curved, oress_curved, List.map_map]
    rfl

/-- C3 amended witness: a concrete flat engine with one scale has its
full-resolution geometry as the top entry. -/
theorem c3_top_scale_amended_witness :
    (geometries_flat (0 : ℕ) (fun _ => 1) (oress_flat [3] 2)).getLast? = some 0 :=
  (c3_top_scale_amended 0 (fun _ => 1) [3] 2 (by simp)).2.1

/-- Telescoping helper: summing `K i` minus the previous kernel over
`i < m` collapses to the last kernel. -/
theorem telescope_aux (K : ℕ → ℝ) (m : ℕ) :
    ∑ i ∈ Finset.range m, (K i - (if 0 < i then K (i - 1) else 0)) =
      if m = 0 then 0 else K (m - 1) := by
  induction m with
  | zero => simp
  | succ p ih =>
    rw [Finset.sum_range_succ, ih]
    cases p with
    | zero => simp
    | succ q => simp

/-- Telescoping for the `__call__` structure shared by the Butterworth bases:
the top scale contributes `1` minus the previous kernel, every other scale
contributes consecutive kernel differences, and the sum collapses to 1. -/
theorem telescope_call (K : ℕ → ℝ) (n : ℕ) (hn : 1 ≤ n) :
    ∑ i ∈ Finset.range n,
      ((if i = n - 1 then (1 : ℝ) else K i) - (if 0 < i then K (i - 1) else 0)) = 1 := by
  obtain ⟨m, rfl⟩ : ∃ m, n = m + 1 := ⟨n - 1, by omega⟩
  rw [Finset.sum_range_succ]
  have hmid : ∀ i ∈ Finset.range m,
      ((if i = m + 1 - 1 then (1 : ℝ) else K i) - (if 0 < i then K (i - 1) else 0)) =
        (K i - (if 0 < i then K (i - 1) else 0)) := by
    intro i hi
    have hne : i ≠ m + 1 - 1 := by
      have := Finset.mem_range.mp hi
      omega
    rw [if_neg hne]
  rw [Finset.sum_congr rfl hmid, telescope_aux]
  cases m with
  | zero => simp
  | succ q => simp

/-- C2: for a bounds-fixed Butterworth basis with at least one scale, the
filters sum to exactly 1 at every multipole in `[lmin, lmax]` (telescoping);
for the trimmed variant the same sum is within `2*trim` of 1 (it also
telescopes to exactly 1, so the bound holds with room to spare). -/
theorem c2_partition_of_unity (b : Butterworth) (t : ButterTrim)
    (hb : 1 ≤ b.n) (ht : 1 ≤ t.n) (htrim : 0 ≤ t.trim) (l : ℝ)
    (hbl1 : b.lmin ≤ l) (hbl2 : l ≤ b.lmax) (htl1 : t.lmin ≤ l) (htl2 : l ≤ t.lmax) :
    (∑ i ∈ Finset.range b.n, b.call i l) = 1 ∧
    |(∑ i ∈ Finset.range t.n, t.call i l) - 1| ≤ 2 * t.trim := by
  have h1 : (∑ i ∈ Finset.range b.n, b.call i l) = 1 :=
    telescope_call (fun j => b.kernel j l) b.n hb
  have h2 : (∑ i ∈ Finset.range t.n, t.call i l) = 1 :=
    telescope_call (fun j => t.kernel j l) t.n ht
  refine ⟨h1, ?_⟩
  rw [h2]
  simpa using by linarith

/-- C2 witness: concrete one-scale bases (`lmin = 1`, `lmax = 2`, `step = 2`)
evaluated at the multipole `l = 1`. -/
theorem c2_partition_of_unity_witness :
    (∑ i ∈ Finset.range (Butterworth.n ⟨2, 7, 1/1000, 1, 2⟩),
        Butterworth.call ⟨2, 7, 1/1000, 1, 2⟩ i 1) = 1 ∧
    |(∑ i ∈ Finset.range (ButterTrim.n ⟨2, 7, 1/100, 1, 2⟩),
        ButterTrim.call ⟨2, 7, 1/100, 1, 2⟩ i 1) - 1| ≤
      2 * (ButterTrim.trim ⟨2, 7, 1/100, 1, 2⟩) := by
  have hlog2 : Real.log 2 ≠ 0 := ne_of_gt (Real.log_pos one_lt_two)
  have hq : (Real.log 2 - Real.log 1) / Real.log 2 = 1 := by
    rw [Real.log_one, sub_zero, div_self hlog2]
  have hn : (butterN 1 2 2).toNat = 1 := by
    unfold butterN
    rw [hq]
    unfold pyint
    rw [if_pos (by norm_num), Int.floor_one]
    rfl
  have hb : 1 ≤ Butterworth.n ⟨2, 7, 1/1000, 1, 2⟩ := by
    unfold Butterworth.n
    exact le_of_eq hn.symm
  have ht : 1 ≤ ButterTrim.n ⟨2, 7, 1/100, 1, 2⟩ := by
    unfold ButterTrim.n
    exact le_of_eq hn.symm
  exact c2_partition_of_unity ⟨2, 7, 1/1000, 1, 2⟩ ⟨2, 7, 1/100, 1, 2⟩ hb ht
    (by norm_num) 1 (by norm_num) (by norm_num) (by norm_num) (by norm_num)

/-- Heap facts about allocation by appending: pre-existing cells are
unchanged and the new cell is at the old length. -/
theorem heap_alloc_facts (heap : List BasisObj) (c : BasisObj) :
    (∀ j, j < heap.length → (heap ++ [c]).get? j = heap.get? j) ∧
    (heap ++ [c]).get? heap.length = some c := by
  exact ⟨fun j hj => List.get?_append hj, List.get?_concat_length heap c⟩

/-- C8: `with_bounds` never mutates the receiver (every pre-existing heap
cell, the receiver's included, is unchanged by the call), the returned object
is a fresh allocation, and calling twice with the same arguments yields two
distinct objects with equal values. -/
theorem c8_with_bounds_pure (sdk : ℝ → ℝ → Option ℝ → (List (List ℝ) × List ℤ))
    (heap : List BasisObj) (r : ℕ) (a b : ℝ) (h1 : List BasisObj) (i1 : ℕ)
    (hc : with_bounds sdk heap r a b = Except.ok (h1, i1)) :
    (∀ j, j < heap.length → h1.get? j = heap.get? j) ∧ i1 = heap.length ∧
    ∃ h2 i2, with_bounds sdk h1 r a b = Except.ok (h2, i2) ∧ i2 ≠ i1 ∧
      h2.get? i1 = h2.get? i2 ∧ ∀ j, j < heap.length → h2.get? j = heap.get? j := by
  cases hg : heap.get? r with
  | none =>
    rw [with_bounds.eq_def] at hc
    simp only [hg] at hc
    exact Except.noConfusion hc
  | some obj =>
    have hlt : r < heap.length := by
      obtain ⟨hh, _⟩ := List.get?_eq_some.mp hg
      exact hh
    cases hC : constructSame sdk obj a b with
    | error e =>
      rw [with_bounds.eq_def] at hc
      simp only [hg, hC, allocIfOk] at hc
      exact Except.noConfusion hc
    | ok c =>
      simp only [with_bounds, hg, hC, allocIfOk, Except.ok.injEq, Prod.mk.injEq] at hc
      obtain ⟨hh1, hi1⟩ := hc
      subst hh1
      subst hi1
      obtain ⟨hold, _⟩ := heap_alloc_facts heap c
      have hg1 : (heap ++ [c]).get? r = some obj := by rw [hold r hlt, hg]
      have hcall2 : with_bounds sdk (heap ++ [c]) r a b =
          Except.ok ((heap ++ [c]) ++ [c], (heap ++ [c]).length) := by
        simp only [with_bounds, hg1, hC, allocIfOk]
      refine ⟨fun j hj => hold j hj, rfl,
        (heap ++ [c]) ++ [c], (heap ++ [c]).length, hcall2, ?_, ?_, ?_⟩
      · simp
      · obtain ⟨hold2, hnew2⟩ := heap_alloc_facts (heap ++ [c]) c
        have e1 : ((heap ++ [c]) ++ [c]).get? heap.length = some c := by
          rw [hold2 heap.length (by simp)]
          exact (heap_alloc_facts heap c).2
        rw [e1, hnew2]
      · intro j hj
        obtain ⟨hold2, _⟩ := heap_alloc_facts (heap ++ [c]) c
        rw [hold2 j (by simp; omega), hold j hj]

/-- C8 witness: a concrete two-call scenario on a heap holding one `AdriSD`
receiver, instantiating the fresh-and-value-equal conclusion. -/
theorem c8_with_bounds_pure_witness :
    (∀ j, j < 1 →
      ([BasisObj.sd ⟨2, none, none, none, none⟩,
        BasisObj.sd ⟨2, some 1, some 4, some [], some []⟩] : List BasisObj).get? j =
      ([BasisObj.sd ⟨2, none, none, none, none⟩] : List BasisObj).get? j) ∧
    (1 : ℕ) = ([BasisObj.sd ⟨2, none, none, none, none⟩] : List BasisObj).length ∧
    ∃ h2 i2, with_bounds (fun _ _ _ => ([], []))
        [BasisObj.sd ⟨2, none, none, none, none⟩,
         BasisObj.sd ⟨2, some 1, some 4, some [], some []⟩] 0 1 4 =
        Except.ok (h2, i2) ∧ i2 ≠ 1 ∧ h2.get? 1 = h2.get? i2 ∧
      ∀ j, j < 1 → h2.get? j =
        ([BasisObj.sd ⟨2, none, none, none, none⟩] : List BasisObj).get? j := by
  have := c8_with_bounds_pure (fun _ _ _ => ([], []))
    [BasisObj.sd ⟨2, none, none, none, none⟩] 0 1 4
    [BasisObj.sd ⟨2, none, none, none, none⟩,
     BasisObj.sd ⟨2, some 1, some 4, some [], some []⟩] 1 rfl
  simpa using this

/-- A helper bound: rounding half-up never exceeds the ceiling. -/
theorem floor_add_half_le_ceil (x : ℝ) : ⌊x + 1/2⌋ ≤ ⌈x⌉ := by
  rw [Int.floor_le_iff]
  have := Int.le_ceil x
  push_cast
  linarith

/-- Banker's rounding is bounded above by the ceiling. -/
theorem npround_le_ceil (x : ℝ) : npround x ≤ ⌈x⌉ := by
  unfold npround
  split_ifs with h1 h2
  · exact Int.floor_le_ceil x
  · have hx : x = (⌊x⌋ : ℝ) + 1/2 := by
      have hfl := Int.floor_add_fract x
      rw [h1] at hfl
      linarith
    have hceil : ⌈x⌉ = ⌊x⌋ + 1 := by
      rw [Int.ceil_eq_iff]
      constructor <;> push_cast <;> linarith
    omega
  · exact floor_add_half_le_ceil x

/-- Banker's rounding is bounded below by the floor. -/
theorem floor_le_npround (x : ℝ) : ⌊x⌋ ≤ npround x := by
  unfold npround
  split_ifs with h1 h2
  · exact le_refl _
  · omega
  · exact Int.floor_mono (by linarith)

/-- Below the half-point, banker's rounding is the floor. -/
theorem npround_eq_floor (x : ℝ) (h : Int.fract x < 1/2) : npround x = ⌊x⌋ := by
  have hfl := Int.floor_add_fract x
  have hnn := Int.fract_nonneg x
  have hflr : ⌊x + 1/2⌋ = ⌊x⌋ := by
    rw [Int.floor_eq_iff]
    constructor
    · linarith
    · push_cast
      linarith
  unfold npround
  rw [if_neg (ne_of_lt h), hflr]

/-- Above the half-point, banker's rounding is the floor plus one. -/
theorem npround_eq_floor_add_one (x : ℝ) (h : 1/2 < Int.fract x) :
    npround x = ⌊x⌋ + 1 := by
  have hfl := Int.floor_add_fract x
  have hlt := Int.fract_lt_one x
  have hflr : ⌊x + 1/2⌋ = ⌊x⌋ + 1 := by
    rw [Int.floor_eq_iff]
    push_cast
    constructor
    · linarith
    · linarith
  unfold npround
  rw [if_neg (ne_of_gt h), hflr]

/-- Banker's rounding is monotone. -/
theorem npround_mono : Monotone npround := by
  intro x y hxy
  rcases lt_or_le ⌊x⌋ ⌊y⌋ with hf | hf
  · calc npround x ≤ ⌈x⌉ := npround_le_ceil x
      _ ≤ ⌊x⌋ + 1 := Int.ceil_le_floor_add_one x
      _ ≤ ⌊y⌋ := by omega
      _ ≤ npround y := floor_le_npround y
  · have hfe : ⌊x⌋ = ⌊y⌋ := le_antisymm (Int.floor_mono hxy) hf
    have hcast : ((⌊x⌋ : ℤ) : ℝ) = ((⌊y⌋ : ℤ) : ℝ) := by exact_mod_cast congrArg Int.cast hfe
    have hfr : Int.fract x ≤ Int.fract y := by
      have hx := Int.floor_add_fract x
      have hy := Int.floor_add_fract y
      linarith
    rcases lt_trichotomy (Int.fract x) (1/2) with hx2 | hx2 | hx2
    · rw [npround_eq_floor x hx2, hfe]
      exact floor_le_npround y
    · rcases eq_or_lt_of_le hfr with he | hlt2
      · have hxy2 : x = y := by
          have hx := Int.floor_add_fract x
          have hy := Int.floor_add_fract y
          rw [← he] at hy
          linarith
        rw [hxy2]
      · rw [hx2] at hlt2
        rw [npround_eq_floor_add_one y hlt2]
        calc npround x ≤ ⌈x⌉ := npround_le_ceil x
          _ ≤ ⌊x⌋ + 1 := Int.ceil_le_floor_add_one x
          _ = ⌊y⌋ + 1 := by omega
    · have hy2 : 1/2 < Int.fract y := lt_of_lt_of_le hx2 hfr
      rw [npround_eq_floor_add_one x hx2, npround_eq_floor_add_one y hy2]
      omega

/-- Banker's rounding of a value at most an integer stays at most that
integer. -/
theorem npround_le_int (x : ℝ) (m : ℤ) (h : x ≤ (m : ℝ)) : npround x ≤ m :=
  le_trans (npround_le_ceil x) (Int.ceil_le.mpr h)

/-- Python `int()` on an integer value is that integer. -/
theorem pyint_intCast (m : ℤ) : pyint ((m : ℤ) : ℝ) = m := by
  unfold pyint
  split_ifs
  · exact Int.floor_intCast m
  · exact Int.ceil_intCast m

/-- Structure of `_finalize`'s cutoff array: rounding an increasing analytic
sequence and overwriting the top entry with a value dominating the earlier
entries yields a non-decreasing list of the right length whose last entry is
the overwritten value. -/
theorem lmaxsList_props (f : ℕ → ℤ) (nn : ℕ) (M : ℤ) (hnn : 1 ≤ nn)
    (hmono : ∀ i j, i ≤ j → f i ≤ f j)
    (hlast : ∀ i, i < nn - 1 → f i ≤ M) :
    (((List.range nn).map f).set (nn - 1) M).length = nn ∧
    ListNondecr (((List.range nn).map f).set (nn - 1) M) ∧
    ∃ h : nn - 1 < (((List.range nn).map f).set (nn - 1) M).length,
      (((List.range nn).map f).set (nn - 1) M).get ⟨nn - 1, h⟩ = M := by
  have hlen : (((List.range nn).map f).set (nn - 1) M).length = nn := by simp
  have hget : ∀ (i : ℕ) (hi : i < (((List.range nn).map f).set (nn - 1) M).length),
      (((List.range nn).map f).set (nn - 1) M).get ⟨i, hi⟩ =
        if i = nn - 1 then M else f i := by
    intro i hi
    have hi2 : i < nn := by rw [hlen] at hi; exact hi
    rw [List.get_eq_getElem, List.getElem_set]
    rcases eq_or_ne i (nn - 1) with he | he
    · rw [if_pos he.symm, if_pos he]
    · rw [if_neg (Ne.symm he), if_neg he]
      simp
  refine ⟨hlen, ?_, ?_⟩
  · intro i j hi hj hij
    rw [hget i hi, hget j hj]
    have hi2 : i < nn := by rw [hlen] at hi; exact hi
    have hj2 : j < nn := by rw [hlen] at hj; exact hj
    split_ifs with h1 h2 h2
    · exact le_refl M
    · omega
    · exact hlast i (by omega)
    · exact hmono i j hij
  · refine ⟨by omega, ?_⟩
    rw [hget]
    simp

/-- The rounded analytic cutoff stays strictly below the top bound: with
`C < step^1.5` and `step^nn ≤ lmax/lmin`, the pre-rounding value at scale
`i ≤ nn-2` is below `lmax`. -/
theorem pre_lt_target (lmin C step lmax : ℝ) (nn i : ℕ)
    (hstep : 1 < step) (hlmin : 0 < lmin) (hC : 0 < C)
    (hCs : C < step ^ (1.5 : ℝ)) (hpow : step ^ ((nn : ℕ) : ℝ) ≤ lmax / lmin)
    (hi : i + 2 ≤ nn) :
    lmin * C * step ^ ((i : ℝ) + 0.5) < lmax := by
  have hstep0 : (0:ℝ) < step := lt_trans one_pos hstep
  have hp05 : (0:ℝ) < step ^ ((i:ℝ) + 0.5) := Real.rpow_pos_of_pos hstep0 _
  have h1 : lmin * C * step ^ ((i:ℝ) + 0.5) <
      lmin * step ^ (1.5:ℝ) * step ^ ((i:ℝ) + 0.5) :=
    mul_lt_mul_of_pos_right (mul_lt_mul_of_pos_left hCs hlmin) hp05
  have h2 : lmin * step ^ (1.5:ℝ) * step ^ ((i:ℝ) + 0.5) = lmin * step ^ ((i:ℝ) + 2) := by
    rw [mul_assoc, ← Real.rpow_add hstep0]
    have hex : (1.5:ℝ) + ((i:ℝ) + 0.5) = (i:ℝ) + 2 := by ring
    rw [hex]
  have h3 : step ^ ((i:ℝ) + 2) ≤ step ^ (((nn : ℕ) : ℝ)) := by
    apply (Real.rpow_le_rpow_left_iff hstep).mpr
    have hcast : (i:ℝ) + 2 ≤ ((nn : ℕ) : ℝ) := by exact_mod_cast hi
    exact hcast
  have h4 : lmin * step ^ (((nn : ℕ) : ℝ)) ≤ lmax := by
    calc lmin * step ^ (((nn : ℕ) : ℝ)) = step ^ (((nn : ℕ) : ℝ)) * lmin := mul_comm _ _
      _ ≤ lmax := (le_div_iff hlmin).mp hpow
  calc lmin * C * step ^ ((i:ℝ) + 0.5)
      < lmin * step ^ (1.5:ℝ) * step ^ ((i:ℝ) + 0.5) := h1
    _ = lmin * step ^ ((i:ℝ) + 2) := h2
    _ ≤ lmin * step ^ (((nn : ℕ) : ℝ)) := mul_le_mul_of_nonneg_left h3 (le_of_lt hlmin)
    _ ≤ lmax := h4

/-- The pre-rounding cutoff sequence is monotone in the scale index. -/
theorem pre_mono (lmin C step : ℝ) (hstep : 1 < step) (hlmin : 0 < lmin) (hC : 0 < C)
    (i j : ℕ) (hij : i ≤ j) :
    lmin * C * step ^ ((i : ℝ) + 0.5) ≤ lmin * C * step ^ ((j : ℝ) + 0.5) := by
  apply mul_le_mul_of_nonneg_left _ (by positivity)
  apply (Real.rpow_le_rpow_left_iff hstep).mpr
  have : (i:ℝ) ≤ (j:ℝ) := by exact_mod_cast hij
  linarith

/-- The cutoff constant is below `step^1.5` exactly when the log of its base
is below `1.5*shape`. -/
theorem rpowC_lt (base step shape : ℝ) (hbase : 0 < base) (hstep : 1 < step)
    (hshape : 0 < shape) (hlog : Real.log base < 1.5 * shape) :
    base ^ (Real.log step / shape) < step ^ (1.5 : ℝ) := by
  have hstep0 : (0:ℝ) < step := lt_trans one_pos hstep
  have hlstep : 0 < Real.log step := Real.log_pos hstep
  rw [Real.rpow_def_of_pos hbase, Real.rpow_def_of_pos hstep0]
  apply Real.exp_lt_exp.mpr
  have h1 : (Real.log step / shape) * Real.log base <
      (Real.log step / shape) * (1.5 * shape) :=
    mul_lt_mul_of_pos_left hlog (by positivity)
  have h2 : (Real.log step / shape) * (1.5 * shape) = Real.log step * 1.5 := by
    field_simp
    ring
  calc Real.log base * (Real.log step / shape)
      = (Real.log step / shape) * Real.log base := mul_comm _ _
    _ < (Real.log step / shape) * (1.5 * shape) := h1
    _ = Real.log step * 1.5 := h2

/-- Facts about the scale count under `lmin*step <= lmax`: it is at least 1,
`step` to its power stays at most `lmax/lmin`, and it is the floor of
`log(lmax/lmin)/log(step)`. -/
theorem butterN_facts (lmin lmax step : ℝ) (hstep : 1 < step) (hlmin : 0 < lmin)
    (hbound : lmin * step ≤ lmax) :
    1 ≤ butterN lmin lmax step ∧
    step ^ (((butterN lmin lmax step).toNat : ℕ) : ℝ) ≤ lmax / lmin ∧
    butterN lmin lmax step = ⌊Real.log (lmax / lmin) / Real.log step⌋ := by
  have hstep0 : (0:ℝ) < step := lt_trans one_pos hstep
  have hlmax : 0 < lmax := lt_of_lt_of_le (by positivity) hbound
  have hlstep : 0 < Real.log step := Real.log_pos hstep
  have hdiv : Real.log lmax - Real.log lmin = Real.log (lmax / lmin) :=
    (Real.log_div (ne_of_gt hlmax) (ne_of_gt hlmin)).symm
  have hsle : step ≤ lmax / lmin := (le_div_iff hlmin).mpr
    (by calc step * lmin = lmin * step := mul_comm _ _
          _ ≤ lmax := hbound)
  have hlogle : Real.log step ≤ Real.log (lmax / lmin) :=
    Real.log_le_log hstep0 hsle
  have hq1 : 1 ≤ (Real.log lmax - Real.log lmin) / Real.log step := by
    rw [le_div_iff hlstep, one_mul, hdiv]
    exact hlogle
  have hq0 : 0 ≤ (Real.log lmax - Real.log lmin) / Real.log step := by linarith
  have hfloor : butterN lmin lmax step =
      ⌊(Real.log lmax - Real.log lmin) / Real.log step⌋ := by
    unfold butterN pyint
    rw [if_pos hq0]
  have h1 : 1 ≤ butterN lmin lmax step := by
    rw [hfloor]
    exact Int.le_floor.mpr (by exact_mod_cast hq1)
  refine ⟨h1, ?_, by rw [hfloor, hdiv]⟩
  have htn : (((butterN lmin lmax step).toNat : ℕ) : ℝ) ≤
      (Real.log lmax - Real.log lmin) / Real.log step := by
    have hnn : ((butterN lmin lmax step).toNat : ℤ) = butterN lmin lmax step :=
      Int.toNat_of_nonneg (by omega)
    calc (((butterN lmin lmax step).toNat : ℕ) : ℝ)
        = ((butterN lmin lmax step : ℤ) : ℝ) := by exact_mod_cast congrArg Int.cast hnn
      _ ≤ (Real.log lmax - Real.log lmin) / Real.log step := by
          rw [hfloor]
          exact Int.floor_le _
  rw [Real.rpow_def_of_pos hstep0]
  have hexp : Real.log step * (((butterN lmin lmax step).toNat : ℕ) : ℝ) ≤
      Real.log (lmax / lmin) := by
    have := mul_le_mul_of_nonneg_left htn (le_of_lt hlstep)
    calc Real.log step * (((butterN lmin lmax step).toNat : ℕ) : ℝ)
        ≤ Real.log step * ((Real.log lmax - Real.log lmin) / Real.log step) := this
      _ = Real.log lmax - Real.log lmin := by field_simp
      _ = Real.log (lmax / lmin) := hdiv
  calc Real.exp (Real.log step * (((butterN lmin lmax step).toNat : ℕ) : ℝ))
      ≤ Real.exp (Real.log (lmax / lmin)) := Real.exp_le_exp.mpr hexp
    _ = lmax / lmin := Real.exp_log (by positivity)

/-- Indices equal as naturals pick equal list entries. -/
theorem get_congr_idx (L : List ℤ) (i j : ℕ) (hi : i < L.length) (hj : j < L.length)
    (hij : i = j) : L.get ⟨i, hi⟩ = L.get ⟨j, hj⟩ := by
  subst hij
  rfl

/-- Reduction of a successful `Butterworth.__init__` with both bounds given:
when at least one scale exists, construction finalizes with the rounded
cutoff list whose top entry is overwritten by `int(lmax)`. -/
theorem butterworth_init_ok (step shape tol lmin lmax : ℝ)
    (hnn : 1 ≤ (butterN lmin lmax step).toNat) :
    Butterworth.init step shape tol (some lmin) (some lmax) =
      Except.ok ⟨step, shape, tol, some lmin, some lmax, some (butterN lmin lmax step),
        some (((List.range (butterN lmin lmax step).toNat).map
            (fun i => npround (butterLmaxsPre lmin tol step shape i))).set
          ((butterN lmin lmax step).toNat - 1) (pyint lmax))⟩ := by
  have hne : (((List.range ((butterN lmin lmax step).toNat)).map
      (fun i => npround (butterLmaxsPre lmin tol step shape i))).isEmpty) = false := by
    simp only [List.isEmpty_eq_false, ne_eq, List.map_eq_nil_iff, List.range_eq_nil]
    omega
  unfold Butterworth.init Butterworth.finalize
  simp only [hne, Bool.false_eq_true, if_false, List.length_map, List.length_range]

/-- Reduction of a successful `ButterTrim.__init__` with both bounds given. -/
theorem buttertrim_init_ok (step shape trim lmin lmax : ℝ)
    (hnn : 1 ≤ (butterN lmin lmax step).toNat) :
    ButterTrim.init step shape trim (some lmin) (some lmax) =
      Except.ok ⟨step, shape, trim, some lmin, some lmax, some (butterN lmin lmax step),
        some (((List.range (butterN lmin lmax step).toNat).map
            (fun i => ⌈trimLmaxsPre lmin trim step shape i⌉)).set
          ((butterN lmin lmax step).toNat - 1) (pyint lmax))⟩ := by
  have hne : (((List.range ((butterN lmin lmax step).toNat)).map
      (fun i => ⌈trimLmaxsPre lmin trim step shape i⌉)).isEmpty) = false := by
    simp only [List.isEmpty_eq_false, ne_eq, List.map_eq_nil_iff, List.range_eq_nil]
    omega
  unfold ButterTrim.init ButterTrim.finalize
  simp only [hne, Bool.false_eq_true, if_false, List.length_map, List.length_range]

/-- C6 amended: for parameters with at least one scale (`lmin*step <= lmax`),
positive bounds, integer `lmax`, and roll-off/tolerance parameters satisfying
`log(1/tol-1) < 1.5*shape` resp. `log((1+2*trim)/trim-1) < 1.5*shape` (the
defaults do), both Butterworth-family constructors succeed and produce a
`lmaxs` list of length `floor(log(lmax/lmin)/log(step))` that is
non-decreasing with last entry exactly `lmax`. -/
theorem c6_lmaxs_amended (step shape tol trim lmin lmax : ℝ) (M : ℤ)
    (hstep : 1 < step) (hlmin : 0 < lmin) (hshape : 0 < shape)
    (htol0 : 0 < tol) (htol1 : tol < 1)
    (htolS : Real.log (1/tol - 1) < 1.5 * shape)
    (htrim : 0 < trim)
    (htrimS : Real.log ((1 + 2*trim)/trim - 1) < 1.5 * shape)
    (hM : lmax = (M : ℝ)) (hbound : lmin * step ≤ lmax) :
    (∃ o L, Butterworth.init step shape tol (some lmin) (some lmax) = Except.ok o ∧
      o.lmaxs = some L ∧ (L.length : ℤ) = ⌊Real.log (lmax/lmin) / Real.log step⌋ ∧
      ListNondecr L ∧ ∃ h : L.length - 1 < L.length, L.get ⟨L.length - 1, h⟩ = M) ∧
    (∃ o L, ButterTrim.init step shape trim (some lmin) (some lmax) = Except.ok o ∧
      o.lmaxs = some L ∧ (L.length : ℤ) = ⌊Real.log (lmax/lmin) / Real.log step⌋ ∧
      ListNondecr L ∧ ∃ h : L.length - 1 < L.length, L.get ⟨L.length - 1, h⟩ = M) := by
  obtain ⟨hn1, hpow, hNfl⟩ := butterN_facts lmin lmax step hstep hlmin hbound
  have hnn1 : 1 ≤ (butterN lmin lmax step).toNat := by omega
  have hnnZ : (((butterN lmin lmax step).toNat : ℕ) : ℤ) = butterN lmin lmax step :=
    Int.toNat_of_nonneg (by omega)
  have hpy : pyint lmax = M := by rw [hM]; exact pyint_intCast M
  constructor
  · -- Butterworth
    have hbase : (0:ℝ) < 1/tol - 1 := by
      have h1t : 1 < 1/tol := by rw [lt_div_iff htol0]; linarith
      linarith
    have hCpos : 0 < (1/tol - 1) ^ (Real.log step / shape) :=
      Real.rpow_pos_of_pos hbase _
    have hCs := rpowC_lt (1/tol - 1) step shape hbase hstep hshape htolS
    have hmono : ∀ i j, i ≤ j →
        npround (butterLmaxsPre lmin tol step shape i) ≤
        npround (butterLmaxsPre lmin tol step shape j) := by
      intro i j hij
      exact npround_mono (pre_mono lmin ((1/tol - 1) ^ (Real.log step / shape))
        step hstep hlmin hCpos i j hij)
    have hlastf : ∀ i, i < (butterN lmin lmax step).toNat - 1 →
        npround (butterLmaxsPre lmin tol step shape i) ≤ pyint lmax := by
      intro i hi
      rw [hpy]
      apply npround_le_int
      rw [← hM]
      exact le_of_lt (pre_lt_target lmin ((1/tol - 1) ^ (Real.log step / shape))
        step lmax ((butterN lmin lmax step).toNat) i hstep hlmin hCpos hCs hpow
        (by omega))
    obtain ⟨hlen, hnd, hex⟩ := lmaxsList_props
      (fun i => npround (butterLmaxsPre lmin tol step shape i))
      ((butterN lmin lmax step).toNat) (pyint lmax) hnn1 hmono hlastf
    refine ⟨_, _, butterworth_init_ok step shape tol lmin lmax hnn1, rfl, ?_, hnd, ?_⟩
    · rw [hlen, hnnZ, hNfl]
    · obtain ⟨hb, he⟩ := hex
      refine ⟨by rw [hlen]; omega, ?_⟩
      exact (get_congr_idx _ _ _ _ hb (by rw [hlen])).trans (he.trans hpy)
  · -- ButterTrim
    have hbase : (0:ℝ) < (1 + 2*trim)/trim - 1 := by
      have h1t : 1 < (1 + 2*trim)/trim := by rw [lt_div_iff htrim]; linarith
      linarith
    have hCpos : 0 < ((1 + 2*trim)/trim - 1) ^ (Real.log step / shape) :=
      Real.rpow_pos_of_pos hbase _
    have hCs := rpowC_lt ((1 + 2*trim)/trim - 1) step shape hbase hstep hshape htrimS
    have hmono : ∀ i j, i ≤ j →
        ⌈trimLmaxsPre lmin trim step shape i⌉ ≤ ⌈trimLmaxsPre lmin trim step shape j⌉ := by
      intro i j hij
      exact Int.ceil_le_ceil (pre_mono lmin (((1 + 2*trim)/trim - 1) ^ (Real.log step / shape))
        step hstep hlmin hCpos i j hij)
    have hlastf : ∀ i, i < (butterN lmin lmax step).toNat - 1 →
        ⌈trimLmaxsPre lmin trim step shape i⌉ ≤ pyint lmax := by
      intro i hi
      rw [hpy]
      apply Int.ceil_le.mpr
      rw [← hM]
      exact le_of_lt (pre_lt_target lmin (((1 + 2*trim)/trim - 1) ^ (Real.log step / shape))
        step lmax ((butterN lmin lmax step).toNat) i hstep hlmin hCpos hCs hpow
        (by omega))
    obtain ⟨hlen, hnd, hex⟩ := lmaxsList_props
      (fun i => ⌈trimLmaxsPre lmin trim step shape i⌉)
      ((butterN lmin lmax step).toNat) (pyint lmax) hnn1 hmono hlastf
    refine ⟨_, _, buttertrim_init_ok step shape trim lmin lmax hnn1, rfl, ?_, hnd, ?_⟩
    · rw [hlen, hnnZ, hNfl]
    · obtain ⟨hb, he⟩ := hex
      refine ⟨by rw [hlen]; omega, ?_⟩
      exact (get_congr_idx _ _ _ _ hb (by rw [hlen])).trans (he.trans hpy)

/-- C6 counterexample: with `lmin = 2 < 3 = lmax` and `step = 2` the scale
count `n = int(log(3/2)/log 2)` is 0, `np.arange(0)` is empty, and the
assignment `lmaxs[-1] = lmax` raises `IndexError`, so no instance with the
claimed `lmaxs` exists for this valid `lmin < lmax` combination. -/
theorem c6_lmaxs_counterexample :
    Butterworth.init 2 7 (1/1000) (some 2) (some 3) =
      Except.error "IndexError: index -1 is out of bounds" := by
  have hl2 : (0:ℝ) < Real.log 2 := Real.log_pos one_lt_two
  have h32 : Real.log 3 - Real.log 2 = Real.log ((3:ℝ)/2) :=
    (Real.log_div (by norm_num) (by norm_num)).symm
  have hq0 : (0:ℝ) ≤ (Real.log 3 - Real.log 2) / Real.log 2 := by
    apply div_nonneg _ (le_of_lt hl2)
    rw [h32]
    exact Real.log_nonneg (by norm_num)
  have hq1 : (Real.log 3 - Real.log 2) / Real.log 2 < 1 := by
    rw [div_lt_one hl2, h32]
    have := Real.log_lt_log (by norm_num : (0:ℝ) < 3/2) (by norm_num : (3:ℝ)/2 < 2)
    linarith
  have hn : butterN 2 3 2 = 0 := by
    unfold butterN pyint
    rw [if_pos hq0, Int.floor_eq_zero_iff]
    exact Set.mem_Ico.mpr ⟨hq0, hq1⟩
  unfold Butterworth.init Butterworth.finalize
  simp [hn]

/-- C6 amended witness: the default-parameter bases with `lmin = 1`,
`lmax = 4`, `step = 2` (two scales). -/
theorem c6_lmaxs_amended_witness :
    (∃ o L, Butterworth.init 2 7 (1/1000) (some 1) (some 4) = Except.ok o ∧
      o.lmaxs = some L ∧ (L.length : ℤ) = ⌊Real.log ((4:ℝ)/1) / Real.log 2⌋ ∧
      ListNondecr L ∧ ∃ h : L.length - 1 < L.length, L.get ⟨L.length - 1, h⟩ = 4) ∧
    (∃ o L, ButterTrim.init 2 7 (1/100) (some 1) (some 4) = Except.ok o ∧
      o.lmaxs = some L ∧ (L.length : ℤ) = ⌊Real.log ((4:ℝ)/1) / Real.log 2⌋ ∧
      ListNondecr L ∧ ∃ h : L.length - 1 < L.length, L.get ⟨L.length - 1, h⟩ = 4) := by
  have l2d9 := Real.log_two_lt_d9
  have hlog999 : Real.log (1/(1/1000) - 1) < 1.5 * 7 := by
    have h999 : (1:ℝ)/(1/1000) - 1 = 999 := by norm_num
    rw [h999]
    have h1 : Real.log 999 ≤ Real.log 1024 := Real.log_le_log (by norm_num) (by norm_num)
    have h2 : Real.log 1024 = 10 * Real.log 2 := by
      rw [show (1024:ℝ) = 2^10 by norm_num, Real.log_pow]
      push_cast
      ring
    linarith
  have hlog101 : Real.log ((1 + 2*(1/100))/(1/100) - 1) < 1.5 * 7 := by
    have h101 : (1 + 2*((1:ℝ)/100))/(1/100) - 1 = 101 := by norm_num
    rw [h101]
    have h1 : Real.log 101 ≤ Real.log 128 := Real.log_le_log (by norm_num) (by norm_num)
    have h2 : Real.log 128 = 7 * Real.log 2 := by
      rw [show (128:ℝ) = 2^7 by norm_num, Real.log_pow]
      push_cast
      ring
    linarith
  exact c6_lmaxs_amended 2 7 (1/1000) (1/100) 1 4 4 (by norm_num) (by norm_num)
    (by norm_num) (by norm_num) (by norm_num) hlog999 (by norm_num) hlog101
    (by norm_num) (by norm_num)

/-- C1: flat-sky round trip.  Under the collaborator contracts of §6 — the
unnormalized FFT pair inverts with the pixel-count factor (on the full grid
for real maps, and per scale on real-representable spectra), the inverse FFT
is homogeneous in a real scalar, and the filtered cropped spectrum of a real
map is real-representable — and under the partition hypothesis that the
per-scale filters, placed at their scales' Fourier supports, sum to exactly 1
at every full-grid multipole (exact partition of unity with no trimming
loss), `wave2map` inverts `map2wave` exactly on every real batched map. -/
theorem c1_roundtrip_flat {N n : ℕ} (E : FlatEnv N n) (basis : ℕ → ℝ → ℝ) {β : Type}
    (hN : 0 < N)
    (hsn : ∀ i, 0 < E.snpix i)
    (hfround : ∀ m : Fin N → ℝ, E.ifft (fun k => E.fft m k) = fun p => (N : ℝ) * m p)
    (hlin : ∀ (c : ℝ) (y : Fin N → ℂ),
      E.ifft (fun k => y k * (c : ℂ)) = fun p => E.ifft y p * c)
    (hsround : ∀ (i : Fin n) (y : Fin N → ℂ), E.symmS i y → ∀ k, E.keep i k = true →
      E.sfft i (E.sifft i y) k = (E.snpix i : ℂ) * y k)
    (hsymm : ∀ (m : Fin N → ℝ) (i : Fin n), E.symmS i (fun k =>
      cropf (E.keep i) (fun k2 => E.fft m k2 / (N : ℂ)) k *
        ((flatFilters E basis i k : ℝ) : ℂ)))
    (hpart : ∀ k : Fin N,
      (∑ i : Fin n, (if E.keep i k then flatFilters E basis i k else 0)) = 1)
    (m : β → Fin N → ℝ) :
    wave2map_flat E (map2wave_flat E basis m) = m := by
  funext b p
  have hNne : (N : ℂ) ≠ 0 := Nat.cast_ne_zero.mpr hN.ne'
  have hterm : ∀ (i : Fin n) (k : Fin N),
      cropf (E.keep i) (fun k2 =>
        E.sfft i (E.sifft i (fun k3 =>
          cropf (E.keep i) (fun k4 => E.fft (m b) k4 / (N : ℂ)) k3 *
            ((flatFilters E basis i k3 : ℝ) : ℂ))) k2 / (E.snpix i : ℂ)) k
      = (E.fft (m b) k / (N : ℂ)) *
          ((if E.keep i k then flatFilters E basis i k else 0 : ℝ) : ℂ) := by
    intro i k
    have hsne : (E.snpix i : ℂ) ≠ 0 := Nat.cast_ne_zero.mpr (hsn i).ne'
    set Y : Fin N → ℂ := fun k3 =>
      cropf (E.keep i) (fun k4 => E.fft (m b) k4 / (N : ℂ)) k3 *
        ((flatFilters E basis i k3 : ℝ) : ℂ) with hY
    have hy := hsround i Y (hsymm (m b) i)
    by_cases hk : E.keep i k = true
    · calc cropf (E.keep i) (fun k2 => E.sfft i (E.sifft i Y) k2 / (E.snpix i : ℂ)) k
          = E.sfft i (E.sifft i Y) k / (E.snpix i : ℂ) := by
            unfold cropf
            rw [if_pos hk]
        _ = ((E.snpix i : ℂ) * Y k) / (E.snpix i : ℂ) := by rw [hy k hk]
        _ = Y k := mul_div_cancel_left₀ _ hsne
        _ = (E.fft (m b) k / (N : ℂ)) *
              ((if E.keep i k then flatFilters E basis i k else 0 : ℝ) : ℂ) := by
            rw [hY]
            show cropf (E.keep i) (fun k4 => E.fft (m b) k4 / (N : ℂ)) k *
              ((flatFilters E basis i k : ℝ) : ℂ) = _
            unfold cropf
            rw [if_pos hk, if_pos hk]
    · unfold cropf
      rw [if_neg hk, if_neg hk]
      simp
  have hsum : (fun k => ∑ i : Fin n,
      cropf (E.keep i) (fun k2 =>
        E.sfft i (E.sifft i (fun k3 =>
          cropf (E.keep i) (fun k4 => E.fft (m b) k4 / (N : ℂ)) k3 *
            ((flatFilters E basis i k3 : ℝ) : ℂ))) k2 / (E.snpix i : ℂ)) k)
      = fun k => E.fft (m b) k / (N : ℂ) := by
    funext k
    rw [Finset.sum_congr rfl (fun i _ => hterm i k), ← Finset.mul_sum]
    have hc : (∑ i : Fin n, ((if E.keep i k then flatFilters E basis i k else 0 : ℝ) : ℂ))
        = (((∑ i : Fin n, (if E.keep i k then flatFilters E basis i k else 0) : ℝ)) : ℂ) := by
      rw [Complex.ofReal_sum]
    rw [hc, hpart k, Complex.ofReal_one, mul_one]
  show E.ifft (fun k => ∑ i : Fin n,
      cropf (E.keep i) (fun k2 =>
        E.sfft i (E.sifft i (fun k3 =>
          cropf (E.keep i) (fun k4 => E.fft (m b) k4 / (N : ℂ)) k3 *
            ((flatFilters E basis i k3 : ℝ) : ℂ))) k2 / (E.snpix i : ℂ)) k) p = m b p
  rw [hsum]
  have hNr : (N : ℝ) ≠ 0 := Nat.cast_ne_zero.mpr hN.ne'
  have hdiv : (fun k => E.fft (m b) k / (N : ℂ))
      = fun k => E.fft (m b) k * (((N : ℝ)⁻¹ : ℝ) : ℂ) := by
    funext k
    rw [div_eq_mul_inv]
    congr 1
    rw [Complex.ofReal_inv, Complex.ofReal_natCast]
  rw [hdiv, hlin ((N : ℝ)⁻¹) (fun k => E.fft (m b) k)]
  show E.ifft (fun k => E.fft (m b) k) p * ((N : ℝ))⁻¹ = m b p
  rw [hfround (m b)]
  show (N : ℝ) * m b p * ((N : ℝ))⁻¹ = m b p
  field_simp

/-- C1 witness: the round trip evaluated on a concrete one-mode, one-scale
environment in which the FFT contracts hold by computation, with the constant
filter 1 and the constant map 2. -/
theorem c1_roundtrip_flat_witness :
    wave2map_flat flatEnvOne (map2wave_flat flatEnvOne (fun _ _ => 1)
        (fun (_ : Unit) (_ : Fin 1) => (2:ℝ))) =
      (fun (_ : Unit) (_ : Fin 1) => (2:ℝ)) := by
  apply c1_roundtrip_flat
  · exact Nat.one_pos
  · intro i
    exact Nat.one_pos
  · intro mm
    funext q
    have hq : q = 0 := Subsingleton.elim q 0
    subst hq
    simp [flatEnvOne]
  · intro c y
    funext q
    show (y 0 * (c : ℂ)).re = (y 0).re * c
    simp [Complex.mul_re]
  · intro i y hyim k hk
    have hyim2 : (y 0).im = 0 := hyim
    have hk0 : k = 0 := Subsingleton.elim k 0
    subst hk0
    apply Complex.ext <;> simp [flatEnvOne, hyim2]
  · intro mm i
    show ((cropf (flatEnvOne.keep i) (fun k2 => flatEnvOne.fft mm k2 / ((1 : ℕ) : ℂ)) 0 *
        ((flatFilters flatEnvOne (fun _ _ => 1) i 0 : ℝ) : ℂ)).im = 0)
    simp [flatEnvOne, cropf, flatFilters]
  · intro k
    show (∑ i : Fin 1, if flatEnvOne.keep i k then
        flatFilters flatEnvOne (fun _ _ => 1) i k else 0) = 1
    simp [flatEnvOne, flatFilters]
